import Mathlib

/-!
Shallow embedding of `ITMO_FS/filters/multivariate/mimaga.py` (MIMAGA feature
selection: a mutual-information pre-filter followed by an adaptive genetic
search over binary feature-inclusion masks), together with theorems settling
the specification claims C1–C10.

Modelling conventions:
* numeric data entries and fitness values are exact rationals `ℚ`;
  `np.log` is the exact real logarithm `Real.log`, so entropies live in `ℝ`;
* a chromosome (Python `list` of `int` bits) is a `List ℤ`; a feature matrix
  (features as rows) is a `List (List ℚ)`;
* Python exceptions (`AttributeError`, `KeyError`, `IndexError`,
  `ValueError`) are modelled by `Option`, a raised exception being `none`;
* the shared `random` source is a stream `rng : ℕ → ℕ` read at a running
  position, `random.randint(a, b)` turning the next stream value into a
  number in `[a, b]`;
* chromosomes are mutable Python list objects: the heap is modelled
  explicitly as a `store : List Mask` addressed by allocation index, so that
  in-place updates and aliasing (several references to one list object) are
  captured;
* the classifier pipeline of lines 82–87 (`StandardScaler` + `SVC`, `fit`,
  `predict`, `f1_score`) is the external capability of spec §6 and is passed
  in as an opaque function `classify` producing the F1 fitness of a decoded
  train/test pair, and `sklearn.model_selection.train_test_split` is likewise
  an external collaborator passed in as an opaque `split` function.
-/

namespace Mimaga

/-- A chromosome: a Python list of int bits (1 = feature included). -/
abbrev Mask := List ℤ

/-- A feature matrix, features as rows and samples as columns. -/
abbrev Mat := List (List ℚ)

/-- `marginal_entropy(x)` (mimaga.py lines 10–17).  The code builds
`probs = [count(xi)/len(x) for xi in x]` by mapping over the sequence `x`
itself — one entry per occurrence, not one per distinct value — keeps the
strictly positive entries and returns `-sum(p * log p)` over that list. -/
noncomputable def marginal_entropy (x : List ℚ) : ℝ :=
  let probs := x.map (fun xi => (x.count xi : ℚ) / (x.length : ℚ))
  let nonzero_probs := probs.filter (fun p => 0 < p)
  let entropy := -((nonzero_probs.map (fun p => (p : ℝ) * Real.log (p : ℝ))).sum)
  entropy

/-- `conditional_entropy(x, y)` (lines 20–35): for every distinct value `yi`
of `y`, the entropy of the conditional distribution of `x` given `yi`
(counted over the aligned pairs), weighted by the empirical probability of
`yi`.  The embedding assumes the documented contract `len(x) == len(y)`
(pairs are aligned by `zip`). -/
noncomputable def conditional_entropy (x y : List ℚ) : ℝ :=
  let pairs := x.zip y
  ((y.dedup).map (fun yi =>
    let x_by_yi := (x.dedup).map
      (fun xi => (pairs.count (xi, yi) : ℚ) / (y.count yi : ℚ))
    let nonzero_probs := x_by_yi.filter (fun p => 0 < p)
    (((y.count yi : ℚ) / (y.length : ℚ) : ℚ) : ℝ) *
      (-((nonzero_probs.map (fun p => (p : ℝ) * Real.log (p : ℝ))).sum)))).sum

/-- `mutual_information(x, y)` (lines 38–39). -/
noncomputable def mutual_information (x y : List ℚ) : ℝ :=
  marginal_entropy x - conditional_entropy x y

/-- Reference definition taken from the spec's words (§4.1), for comparison
with `marginal_entropy`: the empirical Shannon entropy, `-Σ p·log p` over the
strictly positive empirical probabilities of the DISTINCT values of `x`,
each distinct value contributing exactly one term. -/
noncomputable def spec_marginal_entropy (x : List ℚ) : ℝ :=
  let probs := x.dedup.map (fun v => (x.count v : ℚ) / (x.length : ℚ))
  let nonzero_probs := probs.filter (fun p => 0 < p)
  let entropy := -((nonzero_probs.map (fun p => (p : ℝ) * Real.log (p : ℝ))).sum)
  entropy

/-- `genes_mutual_information(genes)` (lines 42–54): the pairwise
feature-by-feature mutual-information matrix (diagonal zero), row-summed to
one redundancy score per feature. -/
noncomputable def genes_mutual_information (genes : Mat) : List ℝ :=
  let g_num := genes.length
  (List.range g_num).map (fun i =>
    ((List.range g_num).map (fun j =>
      if i = j then 0
      else mutual_information (genes.getD i []) (genes.getD j []))).sum)

/-- The `MIMAGA` configuration object (lines 133–153): `__init__` stores the
constructor arguments under the underscored attribute names. -/
structure MIMAGA where
  _mim_size : ℕ
  _pop_size : ℕ
  _max_iter : ℕ
  _f_target : ℚ
  _k1 : ℚ
  _k2 : ℚ
  _k3 : ℚ
  _k4 : ℚ

/-- Python attribute lookup for `self.mim_size`, as read at line 165:
`__init__` assigns only `self._mim_size` (line 146) and nothing ever assigns
`mim_size`, so every lookup of this attribute raises `AttributeError`,
modelled as `none`. -/
def MIMAGA.attr_mim_size (_ : MIMAGA) : Option ℕ := none

/-- `MIMAGA._mim_filter(genes)` (lines 157–166): rank the feature indices by
`sorted(zip(mi_vector, seq_nums))` — Python tuple order: ascending by score,
ties by index — then truncate with `[:self.mim_size]`.  The attribute
`mim_size` does not exist (see `MIMAGA.attr_mim_size`), so the method always
fails after computing the ranking. -/
noncomputable def MIMAGA._mim_filter (m : MIMAGA) (genes : Mat) : Option (List ℕ) :=
  let g_num := genes.length
  let mi_vector := genes_mutual_information genes
  let seq_nums := List.range g_num
  let target_sequence := ((mi_vector.zip seq_nums).insertionSort
      (fun p q => p.1 < q.1 ∨ (p.1 = q.1 ∧ p.2 ≤ q.2))).map Prod.snd
  m.attr_mim_size.map (fun sz => target_sequence.take sz)

/-- The mutable runtime state: the Python heap restricted to the chromosome
list objects (`store`, addressed by allocation index) plus the shared random
source, a stream `rng` read at the running position `pos`. -/
structure GaSt where
  store : List Mask
  rng : ℕ → ℕ
  pos : ℕ

/-- `random.randint(lo, hi)`: the next stream value is mapped into
`[lo, hi]`; when `hi < lo` Python raises `ValueError` (empty range). -/
def randint (lo hi : ℤ) (s : GaSt) : Option (ℤ × GaSt) :=
  if hi < lo then none
  else some (lo + (s.rng s.pos : ℤ) % (hi - lo + 1), ⟨s.store, s.rng, s.pos + 1⟩)

/-- Allocation of a fresh list object on the heap: its address is the current
store length. -/
def alloc (x : Mask) (s : GaSt) : ℕ × GaSt :=
  (s.store.length, ⟨s.store ++ [x], s.rng, s.pos⟩)

/-- Allocate a whole list of fresh list objects, in order. -/
def allocList : List Mask → GaSt → List ℕ × GaSt
  | [], s => ([], s)
  | x :: xs, s =>
    let p := alloc x s
    let r := allocList xs p.2
    (p.1 :: r.1, r.2)

/-- Positional walk of `decode_genes`'s loop (lines 64–69): the dict
`mapping = {0: i0, 1: i1, ...}` is modelled by the list `[i0, i1, ...]`; at
each chromosome position with bit `1` the mapped row is looked up in both
matrices.  A missing mapping key is a `KeyError`, an out-of-range row an
`IndexError` — both `none`. -/
def decodeGo (train test : Mat) : Mask → List ℕ → Option (Mat × Mat)
  | [], _ => some ([], [])
  | b :: bs, mapping =>
    if b = 1 then
      match mapping with
      | [] => none
      | idx :: ms =>
        match train.get? idx, test.get? idx with
        | some tr, some te =>
          (decodeGo train test bs ms).map (fun r => (tr :: r.1, te :: r.2))
        | _, _ => none
    else decodeGo train test bs mapping.tail

/-- `decode_genes(mapping, chromosome, train, test)` (lines 57–70): the rows
of `train` and `test` selected by the chromosome's 1-bits, in mask-position
order. -/
def decode_genes (mapping : List ℕ) (chromosome : Mask) (train test : Mat) :
    Option (Mat × Mat) :=
  decodeGo train test chromosome mapping

/-- The scoring loop of `population_fitness` (lines 78–89): each individual
is decoded; an individual whose decoded train matrix is empty is skipped
(`continue`); otherwise the external classifier capability `classify`
(lines 82–87: pipeline fit / predict / `f1_score`) yields its fitness, which
is recorded in `code_fitness` and added to `f_sum`. -/
def pfLoop (classify : Mat → List ℚ → Mat → List ℚ → ℚ) (mapping : List ℕ)
    (store : List Mask) (train : Mat) (train_cl : List ℚ) (test : Mat)
    (test_cl : List ℚ) : List ℕ → Option (List (ℕ × ℚ) × ℚ)
  | [] => some ([], 0)
  | a :: rest => do
    let dec ← decode_genes mapping (store.getD a []) train test
    if dec.1.length = 0 then
      pfLoop classify mapping store train train_cl test test_cl rest
    else
      let f := classify dec.1 train_cl dec.2 test_cl
      let r ← pfLoop classify mapping store train train_cl test test_cl rest
      some ((a, f) :: r.1, r.2 + f)

/-- `population_fitness(mapping, population, train, train_cl, test, test_cl)`
(lines 73–93): score the population (skipping zero-feature individuals),
sort the `(chromosome, fitness)` pairs descending by fitness (stably, as
Python's `sort`), read the top fitness — `code_fitness[0][1]`, an
`IndexError` when nothing was scored — and report
`f_avg = f_sum / len(population)`. -/
def population_fitness (classify : Mat → List ℚ → Mat → List ℚ → ℚ)
    (mapping : List ℕ) (population : List ℕ) (store : List Mask) (train : Mat)
    (train_cl : List ℚ) (test : Mat) (test_cl : List ℚ) :
    Option (List (ℕ × ℚ) × ℚ × ℚ) := do
  let r ← pfLoop classify mapping store train train_cl test test_cl population
  let code_fitness := r.1.insertionSort (fun p q => q.2 ≤ p.2)
  let top ← code_fitness.head?
  some (code_fitness, top.2, r.2 / (population.length : ℚ))

/-- `crossover(x, y)` (lines 96–100): draw `random_point ∈ [1, len(x) - 1]`
(`ValueError` when `len(x) < 2`) and exchange suffixes; the Python slice
`y[random_point:len(x)]` clips at `len(y)`.  The children are fresh lists. -/
def crossover (x y : Mask) (s : GaSt) : Option ((Mask × Mask) × GaSt) :=
  (randint 1 ((x.length : ℤ) - 1) s).map (fun r =>
    let p := r.1.toNat
    ((x.take p ++ (y.take x.length).drop p, y.take p ++ x.drop p), r.2))

/-- `mutation(x)` (lines 103–107): `x` is a reference to a stored list;
draw `random_point ∈ [0, len(x) - 1]`, overwrite
`x[random_point] = (x[random_point] - 1) % 2` IN PLACE on the stored list,
and return the same reference (no copy is made). -/
def mutation (a : ℕ) (s : GaSt) : Option (ℕ × GaSt) :=
  let x := s.store.getD a []
  (randint 0 ((x.length : ℤ) - 1) s).map (fun r =>
    let p := r.1.toNat
    (a, ⟨r.2.store.set a (x.set p ((x.getD p 0 - 1) % 2)), r.2.rng, r.2.pos⟩))

/-- Python `int(...)` applied to the nonnegative float `p * len(population)`
and used as a `range` bound: truncation, with negative values giving an
empty range. -/
def pyCount (q : ℚ) : ℕ := (⌊q⌋).toNat

/-- The crossover loop of `cross_and_mutate` (lines 121–126): each event
draws two parents uniformly (indices via `randint`), crosses the referenced
masks, appends the two fresh children and tracks the maximal parent
fitness seen. -/
def crossEvents (population : List (ℕ × ℚ)) :
    ℕ → List ℕ → ℚ → GaSt → Option ((List ℕ × ℚ) × GaSt)
  | 0, acc, max_parent_f, s => some ((acc, max_parent_f), s)
  | k + 1, acc, max_parent_f, s => do
    let i1 ← randint 0 ((population.length : ℤ) - 1) s
    let i2 ← randint 0 ((population.length : ℤ) - 1) i1.2
    let par1 := population.getD i1.1.toNat (0, 0)
    let par2 := population.getD i2.1.toNat (0, 0)
    let c ← crossover (i2.2.store.getD par1.1 []) (i2.2.store.getD par2.1 []) i2.2
    let a1 := alloc c.1.1 c.2
    let a2 := alloc c.1.2 a1.2
    crossEvents population k (acc ++ [a1.1, a2.1])
      (max (max max_parent_f par1.2) par2.2) a2.2

/-- The mutation loop of `cross_and_mutate` (lines 127–129): each event
draws one individual and appends `mutation` of its mask — which is the SAME
reference, the stored mask being updated in place. -/
def mutateEvents (population : List (ℕ × ℚ)) :
    ℕ → List ℕ → GaSt → Option (List ℕ × GaSt)
  | 0, acc, s => some (acc, s)
  | k + 1, acc, s => do
    let i ← randint 0 ((population.length : ℤ) - 1) s
    let mu ← mutation (population.getD i.1.toNat (0, 0)).1 i.2
    mutateEvents population k (acc ++ [mu.1]) mu.2

/-- `cross_and_mutate(pc, pm, population)` (lines 110–130): perform
`int(pc·n)` crossover events and `int(pm·n)` mutation events; the returned
population is the original masks (references copied by
`map(lambda x: x[0], population)`) followed by the children, then the
mutants. -/
def cross_and_mutate (pc pm : ℚ) (population : List (ℕ × ℚ)) (s : GaSt) :
    Option ((List ℕ × ℚ) × GaSt) := do
  let cross_number := pyCount (pc * (population.length : ℚ))
  let mutate_number := pyCount (pm * (population.length : ℚ))
  let new_population := population.map Prod.fst
  let cr ← crossEvents population cross_number [] 0 s
  let mu ← mutateEvents population mutate_number [] cr.2
  some ((new_population ++ cr.1.1 ++ mu.1, cr.1.2), mu.2)

/-- `MIMAGA._crossover_probability(f_max, f_avg, f_par)` (lines 181–187). -/
def MIMAGA._crossover_probability (m : MIMAGA) (f_max f_avg f_par : ℚ) : ℚ :=
  if f_par ≥ f_avg then
    if f_max ≠ f_avg then m._k1 * ((f_max - f_par) / (f_max - f_avg)) else 1
  else m._k2

/-- `MIMAGA._mutation_probability(f_max, f_avg, f_par)` (lines 189–195). -/
def MIMAGA._mutation_probability (m : MIMAGA) (f_max f_avg f_par : ℚ) : ℚ :=
  if f_par ≥ f_avg then
    if f_max ≠ f_avg then m._k3 * ((f_max - f_par) / (f_max - f_avg)) else 1
  else m._k4

/-- Fuel-based binary digits (most significant first) of a natural number:
`n` itself bounds the number of halvings. -/
def bitsAux : ℕ → ℕ → List ℤ
  | 0, _ => []
  | _ + 1, 0 => []
  | fuel + 1, n => ((n % 2 : ℕ) : ℤ) :: bitsAux fuel (n / 2)

/-- Python `list(map(int, bin(num)[2:]))`: the binary digits of `num`, most
significant first (`bin(0)[2:]` is the single digit `0`). -/
def pyBin (n : ℕ) : List ℤ := if n = 0 then [0] else (bitsAux n n).reverse

/-- Python `str.zfill` on a digit list: left-pad with `0` up to width `w`
(a longer list is returned unchanged). -/
def zfill (w : ℕ) (l : List ℤ) : List ℤ := List.replicate (w - l.length) 0 ++ l

/-- The generation loop of `_initial_population` (lines 174–178): each
iteration draws `individual_num = randint(1, 2 << _mim_size - 1)` — the
inclusive range `[1, 2^_mim_size]` — and appends the zero-filled binary
expansion.  With `_mim_size = 0` the shift `2 << -1` raises `ValueError`. -/
def initPopLoop (m : MIMAGA) : ℕ → List Mask → GaSt → Option (List Mask × GaSt)
  | 0, acc, s => some (acc, s)
  | k + 1, acc, s =>
    if m._mim_size = 0 then none
    else do
      let num ← randint 1 ((2 <<< (m._mim_size - 1) : ℕ) : ℤ) s
      initPopLoop m k (acc ++ [zfill m._mim_size (pyBin num.1.toNat)]) num.2

/-- `MIMAGA._initial_population()` (lines 169–179): `_pop_size` random
chromosomes. -/
def MIMAGA._initial_population (m : MIMAGA) (s : GaSt) :
    Option (List Mask × GaSt) :=
  initPopLoop m m._pop_size [] s

/-- One-generation-at-a-time encoding of the `while` loop of `_aga_filter`
(lines 212–227); the fuel is `_max_iter - counter`, so the loop guard
`counter < _max_iter and f_max < f_target` becomes: stop at fuel `0`,
otherwise stop when `f_max ≥ _f_target`.  `best` is a heap reference
(Python's `best_individual` aliases the stored top mask, which later
in-place mutations may rewrite). -/
def agaLoop (m : MIMAGA) (classify : Mat → List ℚ → Mat → List ℚ → ℚ)
    (max_size : ℕ) (mapping : List ℕ) (train : Mat) (train_cl : List ℚ)
    (test : Mat) (test_cl : List ℚ) :
    ℕ → List ℕ → ℚ → ℚ → ℕ → GaSt → Option ((ℕ × ℚ) × GaSt)
  | 0, _, _, f_max, best, s => some ((best, f_max), s)
  | fuel + 1, population, f_par, f_max, best, s =>
    if f_max < m._f_target then do
      let pf ← population_fitness classify mapping population s.store train
        train_cl test test_cl
      let code_fitness := pf.1
      let f_max' := pf.2.1
      let f_avg := pf.2.2
      let code_fitness' :=
        if max_size < code_fitness.length then code_fitness.take max_size
        else code_fitness
      let population' :=
        if max_size < code_fitness.length then code_fitness'.map Prod.fst
        else population
      let hf := code_fitness'.filter (fun p => f_max' / 2 ≤ p.2)
      let highly_fitted := if hf.isEmpty then code_fitness' else hf
      let top ← code_fitness'.head?
      let pc := m._crossover_probability f_max' f_avg f_par
      let pm := m._mutation_probability f_max' f_avg f_par
      let cm ← cross_and_mutate pc pm highly_fitted s
      agaLoop m classify max_size mapping train train_cl test test_cl fuel
        (population' ++ cm.1.1) cm.1.2 f_max' top.1 cm.2
    else some ((best, f_max), s)

/-- `MIMAGA._aga_filter(max_size, mapping, population, ...)` (lines
197–228): `best_individual` starts as a freshly allocated all-ones mask of
the first individual's length (`IndexError`, i.e. `none`, on an empty
population), `f_par = f_max = 0`, then the generational loop runs; the final
`best_individual` reference is dereferenced in the final heap. -/
def MIMAGA._aga_filter (m : MIMAGA) (classify : Mat → List ℚ → Mat → List ℚ → ℚ)
    (max_size : ℕ) (mapping : List ℕ) (population : List ℕ) (train : Mat)
    (train_cl : List ℚ) (test : Mat) (test_cl : List ℚ) (s : GaSt) :
    Option ((Mask × ℚ) × GaSt) :=
  match population.head? with
  | none => none
  | some a0 =>
    let best0 : Mask := List.replicate (s.store.getD a0 []).length 1
    let al := alloc best0 s
    (agaLoop m classify max_size mapping train train_cl test test_cl
        m._max_iter population 0 0 al.1 al.2).map
      (fun r => ((r.2.store.getD r.1.1 [], r.1.2), r.2))

/-- `numpy` transpose of a (rectangular) features-as-rows matrix. -/
def transposeM (mat : Mat) : Mat :=
  (List.range (mat.headD []).length).map (fun j =>
    mat.map (fun row => row.getD j 0))

/-- `MIMAGA.mimaga_filter(genes, classes)` (lines 230–246): split (external
`train_test_split`, passed as the opaque `split`), MIM-filter the training
features, build the index map `dict(zip(range(_mim_size), filtered_indexes))`
(modelled by the truncated list), generate and allocate the initial
population, run the AGA stage, and finally
`result_genes, _ = decode_genes(...)`: the decoded TRAIN component only. -/
noncomputable def MIMAGA.mimaga_filter (m : MIMAGA)
    (classify : Mat → List ℚ → Mat → List ℚ → ℚ)
    (split : Mat → List ℚ → Mat × Mat × List ℚ × List ℚ)
    (genes : Mat) (classes : List ℚ) (s : GaSt) : Option ((Mat × ℚ) × GaSt) := do
  let genes_T := transposeM genes
  let sp := split genes_T classes
  let train_set := sp.1
  let test_set := sp.2.1
  let train_classes := sp.2.2.1
  let test_classes := sp.2.2.2
  let filtered_indexes ← m._mim_filter (transposeM train_set)
  let index_map := filtered_indexes.take m._mim_size
  let fp ← m._initial_population s
  let ap := allocList fp.1 fp.2
  let res ← m._aga_filter classify (m._pop_size * 2) index_map ap.1
    (transposeM train_set) train_classes (transposeM test_set) test_classes ap.2
  let dec ← decode_genes index_map res.1.1 (transposeM train_set)
    (transposeM test_set)
  some ((dec.1, res.1.2), res.2)

/-! ## Theorems settling the claims -/

/-- C2: `_mim_filter` cannot return the claimed ranking: line 165 truncates
the ranked index list with `self.mim_size`, an attribute that `__init__`
never defines (line 146 stores `self._mim_size`), so for every configuration
and every input matrix the method raises `AttributeError` instead of
returning the ascending-by-redundancy index sequence. -/
theorem mim_filter_always_raises (m : MIMAGA) (genes : Mat) :
    m._mim_filter genes = none := by
  simp [MIMAGA._mim_filter, MIMAGA.attr_mim_size]

/-- C3: `mimaga_filter` never reaches its return statement: its `_mim_filter`
step always raises `AttributeError` (the `self.mim_size` typo at line 165),
so for every dataset, label vector, classifier, split and random stream the
orchestrator aborts — the claimed reduced matrix is never produced (and the
return statement `result_genes, _ = decode_genes(...)` would in any case keep
only the decoded train component, discarding the decoded test component). -/
theorem mimaga_filter_always_raises (m : MIMAGA)
    (classify : Mat → List ℚ → Mat → List ℚ → ℚ)
    (split : Mat → List ℚ → Mat × Mat × List ℚ × List ℚ)
    (genes : Mat) (classes : List ℚ) (s : GaSt) :
    m.mimaga_filter classify split genes classes s = none := by
  simp [MIMAGA.mimaga_filter, MIMAGA._mim_filter, MIMAGA.attr_mim_size]

/-- C4 counterexample: on the heap holding the single mask `[0]` (reference
`0`) and a stream drawing position `0`, `mutation` returns the very
reference it was given — not a copy — and the stored mask it was applied to
has changed from `[0]` to `[1]`: the mask passed in is NOT left unchanged. -/
theorem mutation_counterexample :
    ((mutation 0 ⟨[[0]], fun _ => 0, 0⟩).map (fun r => (r.1, r.2.store)))
        = some (0, [[1]]) ∧
      ¬ ([[(1 : ℤ)]] = [[(0 : ℤ)]]) :=
  ⟨rfl, by decide⟩

/-- C4 amended: `mutation(a)` is an in-place update: whenever the referenced
mask is non-empty it succeeds, returns the SAME reference `a` (no copy), and
the new heap agrees with the old one except that the mask stored at `a` has
exactly the drawn position `p` flipped — its value at `p` changes, every
other position is unchanged, and every other heap object is unchanged.
Consequently the masks stored in the population handed to `cross_and_mutate`
are rewritten in place whenever a mutation event draws them. -/
theorem mutation_in_place (a : ℕ) (s : GaSt)
    (h : 1 ≤ (s.store.getD a []).length) :
    ∃ p : ℕ, p < (s.store.getD a []).length ∧
      mutation a s = some (a, ⟨s.store.set a ((s.store.getD a []).set p
          (((s.store.getD a []).getD p 0 - 1) % 2)), s.rng, s.pos + 1⟩) ∧
      ((s.store.getD a []).set p
          (((s.store.getD a []).getD p 0 - 1) % 2)).getD p 0
        ≠ (s.store.getD a []).getD p 0 ∧
      (∀ q : ℕ, q ≠ p →
        ((s.store.getD a []).set p
            (((s.store.getD a []).getD p 0 - 1) % 2)).getD q 0
          = (s.store.getD a []).getD q 0) ∧
      (∀ b : ℕ, b ≠ a →
        (s.store.set a ((s.store.getD a []).set p
            (((s.store.getD a []).getD p 0 - 1) % 2))).getD b []
          = s.store.getD b []) := by
  set x := s.store.getD a [] with hx
  have hlen : 0 < x.length := h
  refine ⟨s.rng s.pos % x.length, Nat.mod_lt _ hlen, ?_, ?_, ?_, ?_⟩
  · simp only [mutation, randint]
    rw [if_neg (by omega : ¬ ((x.length : ℤ) - 1 < 0))]
    simp only [Option.map_some']
    have harith : ((x.length : ℤ) - 1 - 0 + 1) = (x.length : ℤ) := by ring
    rw [harith, zero_add, ← Int.natCast_mod, Int.toNat_natCast]
  · have hp : s.rng s.pos % x.length < x.length := Nat.mod_lt _ hlen
    simp only [List.getD_eq_getElem?_getD]
    rw [List.getElem?_set_self hp, Option.getD_some,
      List.getElem?_eq_getElem hp, Option.getD_some]
    omega
  · intro q hq
    simp only [List.getD_eq_getElem?_getD]
    rw [List.getElem?_set_ne (by omega : s.rng s.pos % x.length ≠ q)]
  · intro b hb
    simp only [List.getD_eq_getElem?_getD]
    rw [List.getElem?_set_ne (by omega : a ≠ b)]

/-- C4 witness: the amended statement at the concrete heap `[[0]]`,
reference `0`, stream constantly `0`. -/
theorem mutation_in_place_witness :
    1 ≤ (((⟨[[0]], fun _ => 0, 0⟩ : GaSt).store.getD 0 []).length) ∧
      (∃ p : ℕ, p < (((⟨[[0]], fun _ => 0, 0⟩ : GaSt).store.getD 0 []).length) ∧
        mutation 0 ⟨[[0]], fun _ => 0, 0⟩
          = some (0, ⟨(⟨[[0]], fun _ => 0, 0⟩ : GaSt).store.set 0
              (((⟨[[0]], fun _ => 0, 0⟩ : GaSt).store.getD 0 []).set p
                ((((⟨[[0]], fun _ => 0, 0⟩ : GaSt).store.getD 0 []).getD p 0 - 1) % 2)),
            (⟨[[0]], fun _ => 0, 0⟩ : GaSt).rng,
            (⟨[[0]], fun _ => 0, 0⟩ : GaSt).pos + 1⟩) ∧
        (((⟨[[0]], fun _ => 0, 0⟩ : GaSt).store.getD 0 []).set p
            ((((⟨[[0]], fun _ => 0, 0⟩ : GaSt).store.getD 0 []).getD p 0 - 1) % 2)).getD p 0
          ≠ ((⟨[[0]], fun _ => 0, 0⟩ : GaSt).store.getD 0 []).getD p 0 ∧
        (∀ q : ℕ, q ≠ p →
          (((⟨[[0]], fun _ => 0, 0⟩ : GaSt).store.getD 0 []).set p
              ((((⟨[[0]], fun _ => 0, 0⟩ : GaSt).store.getD 0 []).getD p 0 - 1) % 2)).getD q 0
            = ((⟨[[0]], fun _ => 0, 0⟩ : GaSt).store.getD 0 []).getD q 0) ∧
        (∀ b : ℕ, b ≠ 0 →
          ((⟨[[0]], fun _ => 0, 0⟩ : GaSt).store.set 0
              (((⟨[[0]], fun _ => 0, 0⟩ : GaSt).store.getD 0 []).set p
                ((((⟨[[0]], fun _ => 0, 0⟩ : GaSt).store.getD 0 []).getD p 0 - 1) % 2))).getD b []
            = (⟨[[0]], fun _ => 0, 0⟩ : GaSt).store.getD b [])) :=
  ⟨by decide, mutation_in_place 0 ⟨[[0]], fun _ => 0, 0⟩ (by decide)⟩

/-- C5: the initial population can contain a mask LONGER than the configured
reduced size: `random.randint(1, 2 << _mim_size - 1)` has the INCLUSIVE upper
bound `2^_mim_size`, whose binary expansion has `_mim_size + 1` digits and
survives `zfill` unchanged.  With `_mim_size = 1`, `_pop_size = 1` and a
stream hitting the bound, the produced population is the single mask
`[1, 0]` of length `2 ≠ 1`. -/
theorem initial_population_overlong_mask :
    ((MIMAGA._initial_population ⟨1, 1, 0, 0, 0, 0, 0, 0⟩ ⟨[], fun _ => 1, 0⟩).map
        (fun r => r.1)) = some [[1, 0]] ∧
      ¬ (([(1 : ℤ), 0] : Mask).length = (⟨1, 1, 0, 0, 0, 0, 0, 0⟩ : MIMAGA)._mim_size) :=
  ⟨rfl, by decide⟩

/-- C8: the adaptive probability rules (lines 181–195) are exactly as
claimed: `base_high·(f_max − f_par)/(f_max − f_avg)` when `f_par ≥ f_avg`
and `f_max ≠ f_avg`, exactly `1` when `f_par ≥ f_avg` and `f_max = f_avg`,
and exactly the low base constant when `f_par < f_avg` — with
`(k1, k2)` for crossover and `(k3, k4)` for mutation. -/
theorem adaptive_probabilities (m : MIMAGA) (f_max f_avg f_par : ℚ) :
    (f_avg ≤ f_par → f_max ≠ f_avg →
      m._crossover_probability f_max f_avg f_par
          = m._k1 * ((f_max - f_par) / (f_max - f_avg)) ∧
        m._mutation_probability f_max f_avg f_par
          = m._k3 * ((f_max - f_par) / (f_max - f_avg))) ∧
    (f_avg ≤ f_par → f_max = f_avg →
      m._crossover_probability f_max f_avg f_par = 1 ∧
        m._mutation_probability f_max f_avg f_par = 1) ∧
    (f_par < f_avg →
      m._crossover_probability f_max f_avg f_par = m._k2 ∧
        m._mutation_probability f_max f_avg f_par = m._k4) := by
  unfold MIMAGA._crossover_probability MIMAGA._mutation_probability
  refine ⟨fun h1 h2 => ?_, fun h1 h2 => ?_, fun h1 => ?_⟩
  · rw [if_pos (show f_par ≥ f_avg from h1), if_pos (show f_par ≥ f_avg from h1),
      if_pos h2, if_pos h2]
    exact ⟨rfl, rfl⟩
  · rw [if_pos (show f_par ≥ f_avg from h1), if_pos (show f_par ≥ f_avg from h1),
      if_neg (by simp [h2]), if_neg (by simp [h2])]
    exact ⟨rfl, rfl⟩
  · rw [if_neg (not_le.mpr h1), if_neg (not_le.mpr h1)]
    exact ⟨rfl, rfl⟩

/-- C8 witness: concrete values `k1 = 2, k2 = 3, k3 = 5, k4 = 7`,
`f_max = 4, f_avg = 2, f_par = 3`. -/
theorem adaptive_probabilities_witness :
    MIMAGA._crossover_probability ⟨0, 0, 0, 0, 2, 3, 5, 7⟩ 4 2 3 = 1 ∧
      MIMAGA._mutation_probability ⟨0, 0, 0, 0, 2, 3, 5, 7⟩ 4 2 3 = 5 / 2 := by
  have h := (adaptive_probabilities ⟨0, 0, 0, 0, 2, 3, 5, 7⟩ 4 2 3).1
    (by norm_num) (by norm_num)
  refine ⟨?_, ?_⟩
  · rw [h.1]; norm_num
  · rw [h.2]; norm_num

/-- C9 counterexample: `marginal_entropy` applied to the empty sequence does
NOT raise: the probability list is built by mapping over the (empty)
sequence, so no division and no `log` is ever evaluated and the function
silently returns the empty sum, `0`. -/
theorem marginal_entropy_empty : marginal_entropy ([] : List ℚ) = 0 := by
  simp [marginal_entropy]

/-- C9 amended: on every empty sequence `marginal_entropy` silently returns
`0` instead of raising an error. -/
theorem marginal_entropy_empty_returns_zero (x : List ℚ) (h : x.length = 0) :
    marginal_entropy x = 0 := by
  rcases List.length_eq_zero.mp h with rfl
  simp [marginal_entropy]

/-- C9 witness: the amended statement at the empty sequence itself. -/
theorem marginal_entropy_empty_witness :
    ([] : List ℚ).length = 0 ∧ marginal_entropy ([] : List ℚ) = 0 :=
  ⟨rfl, marginal_entropy_empty_returns_zero [] rfl⟩

/-- C7: when every individual of the population decodes to zero selected
features, `population_fitness` fails (every individual is skipped, so
`code_fitness` stays empty and `code_fitness[0][1]` raises `IndexError`)
rather than returning normally — in particular it never returns
`maxFitness = 0` as a silent default for such a population. -/
theorem population_fitness_degenerate (classify : Mat → List ℚ → Mat → List ℚ → ℚ)
    (mapping : List ℕ) (population : List ℕ) (store : List Mask) (train : Mat)
    (train_cl : List ℚ) (test : Mat) (test_cl : List ℚ)
    (h : ∀ a ∈ population,
      decode_genes mapping (store.getD a []) train test = some ([], [])) :
    population_fitness classify mapping population store train train_cl test
      test_cl = none := by
  have haux : ∀ pop : List ℕ,
      (∀ a ∈ pop, decode_genes mapping (store.getD a []) train test = some ([], [])) →
      pfLoop classify mapping store train train_cl test test_cl pop
        = some ([], 0) := by
    intro pop
    induction pop with
    | nil => intro _; rfl
    | cons a rest ih =>
      intro hall
      have ha := hall a (List.mem_cons_self a rest)
      rw [pfLoop, ha]
      simp only [Option.some_bind]
      simp [ih (fun b hb => hall b (List.mem_cons_of_mem a hb))]
  unfold population_fitness
  rw [haux population h]
  rfl

/-- C7 witness: a one-individual population whose sole mask `[0]` decodes to
no features. -/
theorem population_fitness_degenerate_witness :
    (∀ a ∈ ([0] : List ℕ),
      decode_genes [0] (([[0]] : List Mask).getD a []) [[1]] [[1]] = some ([], [])) ∧
      population_fitness (fun _ _ _ _ => 0) [0] [0] [[0]] [[1]] [0] [[1]] [0] = none :=
  ⟨by decide, population_fitness_degenerate (fun _ _ _ _ => 0) [0] [0] [[0]] [[1]] [0]
    [[1]] [0] (by decide)⟩

/-- C6 counterexample: a two-individual population in which the first mask
`[0]` decodes to zero features (skipped) and the second scores fitness `1`:
the reported average is `1/2` — the skipped individual still counts in the
denominator — whereas the claim prescribes the mean of the actually computed
fitnesses, `1`. -/
theorem population_fitness_avg_counterexample :
    ((population_fitness (fun _ _ _ _ => 1) [0] [0, 1] [[0], [1]] [[1, 2]] [0, 1]
          [[3]] [1]).map (fun r => r.2.2)) = some (1 / 2) ∧
      ¬ ((1 : ℚ) / 2 = 1) := by
  constructor
  · norm_num [population_fitness, pfLoop, decode_genes, decodeGo,
      List.insertionSort, List.orderedInsert]
  · norm_num

/-- Helper for C6: the accumulated `f_sum` of the scoring loop is the sum of
the fitnesses of the scored pairs it returns. -/
theorem pfLoop_sum (classify : Mat → List ℚ → Mat → List ℚ → ℚ)
    (mapping : List ℕ) (store : List Mask) (train : Mat) (train_cl : List ℚ)
    (test : Mat) (test_cl : List ℚ) :
    ∀ (pop : List ℕ) (cf : List (ℕ × ℚ)) (fs : ℚ),
      pfLoop classify mapping store train train_cl test test_cl pop
          = some (cf, fs) →
      fs = (cf.map Prod.snd).sum := by
  intro pop
  induction pop with
  | nil =>
    intro cf fs h
    rw [pfLoop] at h
    simp only [Option.some.injEq, Prod.mk.injEq] at h
    obtain ⟨rfl, rfl⟩ := h
    simp
  | cons a rest ih =>
    intro cf fs h
    rw [pfLoop] at h
    cases hd : decode_genes mapping (store.getD a []) train test with
    | none => rw [hd] at h; simp at h
    | some dec =>
      rw [hd] at h
      simp only [Option.bind_eq_bind, Option.some_bind] at h
      by_cases hz : dec.1.length = 0
      · rw [if_pos hz] at h
        exact ih cf fs h
      · rw [if_neg hz] at h
        cases hr : pfLoop classify mapping store train train_cl test test_cl rest with
        | none => rw [hr] at h; simp at h
        | some r =>
          rw [hr] at h
          simp only [Option.bind_eq_bind, Option.some_bind, Option.some.injEq,
            Prod.mk.injEq] at h
          obtain ⟨rfl, rfl⟩ := h
          have hsum := ih r.1 r.2 (by rw [hr])
          simp [hsum, add_comm]

/-- C6 amended: the reported `avgFitness` divides the sum of the computed
fitnesses by the FULL population size: whenever `population_fitness`
succeeds, `f_avg` equals (sum of the fitnesses of the scored pairs) /
(length of the whole population, skipped zero-feature individuals
included). -/
theorem population_fitness_avg (classify : Mat → List ℚ → Mat → List ℚ → ℚ)
    (mapping : List ℕ) (population : List ℕ) (store : List Mask) (train : Mat)
    (train_cl : List ℚ) (test : Mat) (test_cl : List ℚ)
    (cf : List (ℕ × ℚ)) (f_max f_avg : ℚ)
    (h : population_fitness classify mapping population store train train_cl
        test test_cl = some (cf, f_max, f_avg)) :
    f_avg = ((cf.map Prod.snd).sum) / (population.length : ℚ) := by
  unfold population_fitness at h
  cases hl : pfLoop classify mapping store train train_cl test test_cl population with
  | none => rw [hl] at h; simp at h
  | some r =>
    rw [hl] at h
    simp only [Option.bind_eq_bind, Option.some_bind] at h
    cases hh : (r.1.insertionSort (fun p q => q.2 ≤ p.2)).head? with
    | none => rw [hh] at h; simp at h
    | some top =>
      rw [hh] at h
      simp only [Option.bind_eq_bind, Option.some_bind, Option.some.injEq,
        Prod.mk.injEq] at h
      obtain ⟨rfl, rfl, rfl⟩ := h
      have hsum := pfLoop_sum classify mapping store train train_cl test test_cl
        population r.1 r.2 (by rw [hl])
      have hperm : ((r.1.insertionSort (fun p q => q.2 ≤ p.2)).map Prod.snd).sum
          = (r.1.map Prod.snd).sum :=
        ((List.perm_insertionSort (fun p q => q.2 ≤ p.2) r.1).map Prod.snd).sum_eq
      rw [hperm, ← hsum]

/-- C6 witness: the amended statement at the concrete two-individual
population of the counterexample. -/
theorem population_fitness_avg_witness :
    population_fitness (fun _ _ _ _ => 1) [0] [0, 1] [[0], [1]] [[1, 2]] [0, 1]
        [[3]] [1] = some ([(1, 1)], 1, 1 / 2) ∧
      (1 : ℚ) / 2 = (([((1 : ℕ), (1 : ℚ))].map Prod.snd).sum)
        / ((([0, 1] : List ℕ).length : ℕ) : ℚ) :=
  ⟨by norm_num [population_fitness, pfLoop, decode_genes, decodeGo,
      List.insertionSort, List.orderedInsert],
    population_fitness_avg (fun _ _ _ _ => 1) [0] [0, 1] [[0], [1]] [[1, 2]] [0, 1]
      [[3]] [1] [(1, 1)] 1 (1 / 2)
      (by norm_num [population_fitness, pfLoop, decode_genes, decodeGo,
        List.insertionSort, List.orderedInsert])⟩

/-- C10: when `max_iter = 0` or `f_target ≤ 0`, the AGA loop body never runs:
`_aga_filter` on a non-empty population returns — for EVERY classifier, so
no fitness evaluation can have occurred — the freshly built all-ones mask
whose length is the first individual's length, paired with fitness `0`; it
is not a mask drawn from the supplied population. -/
theorem aga_filter_trivial (m : MIMAGA) (classify : Mat → List ℚ → Mat → List ℚ → ℚ)
    (max_size : ℕ) (mapping : List ℕ) (population : List ℕ) (train : Mat)
    (train_cl : List ℚ) (test : Mat) (test_cl : List ℚ) (s : GaSt)
    (hm : m._max_iter = 0 ∨ m._f_target ≤ 0) (hpop : population ≠ []) :
    (m._aga_filter classify max_size mapping population train train_cl test
          test_cl s).map (fun r => r.1)
      = some (List.replicate (s.store.getD (population.headD 0) []).length 1, 0) := by
  obtain ⟨a0, rest, rfl⟩ := List.exists_cons_of_ne_nil hpop
  have hloop : agaLoop m classify max_size mapping train train_cl test test_cl
      m._max_iter (a0 :: rest) 0 0
      (alloc (List.replicate ((s.store.getD a0 []).length) 1) s).1
      (alloc (List.replicate ((s.store.getD a0 []).length) 1) s).2
      = some (((alloc (List.replicate ((s.store.getD a0 []).length) 1) s).1, 0),
          (alloc (List.replicate ((s.store.getD a0 []).length) 1) s).2) := by
    rcases hm with h0 | ht
    · rw [h0]
      rfl
    · cases hmi : m._max_iter with
      | zero => rfl
      | succ k =>
        rw [agaLoop, if_neg (not_lt.mpr ht)]
  simp only [MIMAGA._aga_filter, List.head?_cons]
  rw [hloop]
  simp only [Option.map_some']
  rw [List.getD_eq_getElem?_getD]
  simp only [alloc]
  rw [List.getElem?_concat_length, Option.getD_some]
  rfl

/-- C10 witness: `max_iter = 0`, one-individual population `[0]`, first
individual of length 2. -/
theorem aga_filter_trivial_witness :
    ((⟨1, 1, 0, 1, 0, 0, 0, 0⟩ : MIMAGA)._max_iter = 0 ∨
        (⟨1, 1, 0, 1, 0, 0, 0, 0⟩ : MIMAGA)._f_target ≤ 0) ∧
      (([0] : List ℕ) ≠ []) ∧
      ((MIMAGA._aga_filter ⟨1, 1, 0, 1, 0, 0, 0, 0⟩ (fun _ _ _ _ => 0) 2 [0] [0]
            [[1]] [0] [[1]] [0] ⟨[[1, 0]], fun _ => 0, 0⟩).map (fun r => r.1))
        = some (List.replicate
            (((⟨[[1, 0]], fun _ => 0, 0⟩ : GaSt).store.getD
              (([0] : List ℕ).headD 0) []).length) 1, 0) :=
  ⟨Or.inl rfl, by decide,
    aga_filter_trivial ⟨1, 1, 0, 1, 0, 0, 0, 0⟩ (fun _ _ _ _ => 0) 2 [0] [0]
      [[1]] [0] [[1]] [0] ⟨[[1, 0]], fun _ => 0, 0⟩ (Or.inl rfl) (by decide)⟩

/-- C1: `marginal_entropy` does not compute the empirical Shannon entropy:
on `x = [0, 0, 1]` the value `0` (two occurrences, probability `2/3`)
contributes one `p·log p` term PER OCCURRENCE, because the probability list
is built by mapping over the sequence itself; the result exceeds the
spec's Shannon entropy (one term per distinct value,
`spec_marginal_entropy`) by exactly `-(2/3)·log(2/3) > 0`, so the two
disagree. -/
theorem marginal_entropy_not_shannon :
    marginal_entropy [0, 0, 1] - spec_marginal_entropy [0, 0, 1]
        = -(((2 : ℝ)/3) * Real.log ((2 : ℝ)/3)) ∧
      marginal_entropy [0, 0, 1] ≠ spec_marginal_entropy [0, 0, 1] := by
  have e1 : marginal_entropy [0, 0, 1] =
      -(((2 : ℝ)/3) * Real.log ((2 : ℝ)/3) + (((2 : ℝ)/3) * Real.log ((2 : ℝ)/3)
        + (((1 : ℝ)/3) * Real.log ((1 : ℝ)/3) + 0))) := by
    unfold marginal_entropy
    norm_num [List.count_cons, List.filter_cons]
  have e2 : spec_marginal_entropy [0, 0, 1] =
      -(((2 : ℝ)/3) * Real.log ((2 : ℝ)/3)
        + (((1 : ℝ)/3) * Real.log ((1 : ℝ)/3) + 0)) := by
    unfold spec_marginal_entropy
    norm_num [List.count_cons, List.filter_cons, List.dedup_cons_of_mem,
      List.dedup_cons_of_not_mem]
  have hlog : Real.log ((2 : ℝ)/3) < 0 :=
    Real.log_neg (by norm_num) (by norm_num)
  have hterm : ((2 : ℝ)/3) * Real.log ((2 : ℝ)/3) < 0 :=
    mul_neg_of_pos_of_neg (by norm_num) hlog
  constructor
  · rw [e1, e2]
    ring
  · rw [e1, e2]
    intro heq
    have : ((2 : ℝ)/3) * Real.log ((2 : ℝ)/3) = 0 := by linarith
    linarith

end Mimaga
